import Mathlib

/-!
Verification of the SARA retrieval core (`src/embedder.py`, `src/search.py`)
against its natural-language specification.

We shallowly embed the two Python functions `build_faiss_index` and
`search_faiss`.  Embedding-vector components live in an arbitrary linearly
ordered commutative ring `K` (an exact stand-in for the float32 scalars;
theorems are proved for every such `K`, and concrete witnesses instantiate
`K := ℤ`), the embedding provider is a parameter `embed : String → List K`,
and the file system is a map from paths to file contents.  The FAISS calls
used by the source (`IndexFlatL2.add`, `IndexFlatL2.search`, `write_index`,
`read_index`) are modelled by their documented behaviour: exact brute-force
squared-L2 search returning the `k` smallest distances in ascending order
with ties broken by insertion position, padding with label `-1` when fewer
than `k` vectors are indexed.
-/

namespace SARA

/-- One project of a researcher, as found in the JSON records
(`researcher["projects"]`). `grant_amount` is kept as the string that the
f-string in `embedder.py` interpolates. -/
structure Project where
  title : String
  years : String
  grant_amount : String
  deriving DecidableEq, Repr

/-- One Entity Record (a researcher) from the JSON data file.  `source` is a
provenance field carried in the record but never used when synthesising the
embedding text. -/
structure Researcher where
  name : String
  affiliation : String
  research_areas : List String
  projects : List Project
  source : String
  deriving DecidableEq, Repr

/-- The line appended for one project by the f-string in `embedder.py`:
title, years and grant amount formatted as one line
`Projekt: <title> (<years>, <grant_amount> PLN)` plus a newline. -/
def projectLine (p : Project) : String :=
  "Projekt: " ++ p.title ++ " (" ++ p.years ++ ", " ++ p.grant_amount ++ " PLN)\n"

/-- The text synthesised for one researcher in `build_faiss_index`:
the header f-string followed by one line per project. -/
def researcherText (r : Researcher) : String :=
  r.name ++ " z " ++ r.affiliation ++ " prowadzi badania nad "
    ++ String.intercalate ", " r.research_areas ++ ".\n"
    ++ String.join (r.projects.map projectLine)

/-- Errors.  The first group are the Python/library exceptions the source can
actually raise; the second group are the error names introduced by the
taxonomy of the specification (§7), which the source never raises — they are
declared so that the claims of the spec about them can be stated. -/
inductive Err where
  | indexError        -- Python IndexError (e.g. `embeddings[0]` on an empty list)
  | providerError     -- a failed call to the OpenAI embedding endpoint
  | osError           -- an I/O failure while writing a file
  | faissReadError    -- faiss.read_index failure (missing/unreadable file)
  | fileNotFoundError -- Python FileNotFoundError from open()
  | jsonDecodeError   -- json.load failure on a non-JSON file
  | emptyDatasetError -- spec taxonomy only: never raised by the source
  | invalidQueryError -- spec taxonomy only: never raised by the source
  | indexNotFoundError -- spec taxonomy only: never raised by the source
  deriving DecidableEq, Repr

instance {ε α : Type} [DecidableEq ε] [DecidableEq α] : DecidableEq (Except ε α)
  | .error e, .error f =>
    if h : e = f then .isTrue (by rw [h]) else .isFalse (fun he => h (Except.error.inj he))
  | .error _, .ok _ => .isFalse (fun he => Except.noConfusion he)
  | .ok _, .error _ => .isFalse (fun he => Except.noConfusion he)
  | .ok a, .ok b =>
    if h : a = b then .isTrue (by rw [h]) else .isFalse (fun he => h (Except.ok.inj he))

variable (K : Type) [LinearOrderedCommRing K]

/-- Contents of a persisted file: either a serialized FAISS index (the ordered
list of indexed vectors) or the companion JSON metadata array. -/
inductive FileContent where
  | indexFile (vectors : List (List K))
  | metaFile (metadata : List Researcher)
  deriving DecidableEq

/-- The file system: a map from paths to file contents. -/
def FS : Type := String → Option (FileContent K)

variable {K}

/-- `faiss.write_index(index, path)`: store the indexed vectors at `path`. -/
def writeIndexFile (fs : FS K) (path : String) (vectors : List (List K)) : FS K :=
  fun q => if q = path then some (.indexFile vectors) else fs q

/-- `json.dump(metadata, open(path + ".meta.json", "w"))`. -/
def writeMetaFile (fs : FS K) (path : String) (metadata : List Researcher) : FS K :=
  fun q => if q = path ++ ".meta.json" then some (.metaFile metadata) else fs q

/-- `faiss.read_index(path)`: a missing or non-index file raises. -/
def readIndexFile (fs : FS K) (path : String) : Except Err (List (List K)) :=
  match fs path with
  | some (.indexFile v) => .ok v
  | some (.metaFile _) => .error .faissReadError
  | none => .error .faissReadError

/-- `json.load(open(path + ".meta.json"))`: missing file raises
FileNotFoundError, a non-JSON file raises a decode error. -/
def readMetaFile (fs : FS K) (path : String) : Except Err (List Researcher) :=
  match fs (path ++ ".meta.json") with
  | some (.metaFile m) => .ok m
  | some (.indexFile _) => .error .jsonDecodeError
  | none => .error .fileNotFoundError

/-- The accumulation loop of `build_faiss_index`: for each researcher, append
its synthesised text to `texts` and the full record to `metadata`. -/
def buildRows (data : List Researcher) : List String × List Researcher :=
  data.foldl (fun acc r => (acc.1 ++ [researcherText r], acc.2 ++ [r])) ([], [])

/-- Squared Euclidean (L2) distance, the metric of `faiss.IndexFlatL2`. -/
def sqDist (q v : List K) : K :=
  ((q.zip v).map (fun p => (p.1 - p.2) * (p.1 - p.2))).sum

/-- The order that the exact FAISS search realises on (distance, insertion
position) pairs: ascending distance, ties broken by lower position. -/
def distOrder (a b : K × Nat) : Prop :=
  a.1 < b.1 ∨ (a.1 = b.1 ∧ a.2 ≤ b.2)

instance : DecidableRel (distOrder (K := K)) := fun a b => by
  unfold distOrder; infer_instance

instance : IsTotal (K × Nat) distOrder :=
  ⟨fun a b => by
    unfold distOrder
    rcases lt_trichotomy a.1 b.1 with h | h | h
    · exact Or.inl (Or.inl h)
    · rcases Nat.le_total a.2 b.2 with h2 | h2
      · exact Or.inl (Or.inr ⟨h, h2⟩)
      · exact Or.inr (Or.inr ⟨h.symm, h2⟩)
    · exact Or.inr (Or.inl h)⟩

instance : IsTrans (K × Nat) distOrder :=
  ⟨fun a b c hab hbc => by
    unfold distOrder at *
    rcases hab with h | ⟨he, hn⟩
    · rcases hbc with h2 | ⟨he2, _⟩
      · exact Or.inl (h.trans h2)
      · exact Or.inl (he2 ▸ h)
    · rcases hbc with h2 | ⟨he2, hn2⟩
      · exact Or.inl (he ▸ h2)
      · exact Or.inr ⟨he.trans he2, hn.trans hn2⟩⟩

/-- The search key of indexed vector `i`: its squared L2 distance to the
query paired with its insertion position. -/
def searchKey (vectors : List (List K)) (q : List K) (i : Nat) : K × Nat :=
  (sqDist q (vectors.getD i []), i)

/-- One search key per indexed vector, in insertion order. -/
def searchKeys (vectors : List (List K)) (q : List K) : List (K × Nat) :=
  (List.range vectors.length).map (searchKey vectors q)

/-- `index.search(q, k)` on an `IndexFlatL2` holding `vectors` (labels row):
the positions of the `k` nearest vectors to `q` by squared L2 distance, in
ascending-distance order with ties by insertion position, padded with `-1`
when fewer than `k` vectors are indexed.  (The sorted order is unique —
`distOrder` is antisymmetric on the distinct positions — so the choice of
sorting algorithm is immaterial.) -/
def faissSearch (vectors : List (List K)) (q : List K) (k : Nat) : List Int :=
  let sorted := (searchKeys vectors q).insertionSort distOrder
  ((sorted.map (fun x => (x.2 : Int))).take k)
    ++ List.replicate (k - vectors.length) (-1)

/-- The full ranking of insertion positions produced by the FAISS search:
all positions sorted by `distOrder` of their search keys. -/
def sortedIds (vectors : List (List K)) (q : List K) : List Nat :=
  ((searchKeys vectors q).insertionSort distOrder).map Prod.snd

/-- Python list subscript `l[i]`: negative indices count from the end;
out-of-range raises IndexError (modelled as `none`). -/
def pyGet {α : Type} (l : List α) (i : Int) : Option α :=
  let j : Int := if i < 0 then (l.length : Int) + i else i
  if 0 ≤ j then l.get? j.toNat else none

/-- Where an injected fault strikes during `build_faiss_index`:
`atEmbed` = an embedding call fails (before any write);
`atMetaWrite` = writing the metadata file fails after the index file was
already written; `none` = no fault. -/
inductive FailPoint where
  | none
  | atEmbed
  | atMetaWrite
  deriving DecidableEq, Repr

/-- `build_faiss_index(data_path, index_path)` of `embedder.py`, with the
JSON data file already parsed into `data`.  Returns the file system after the
call together with the outcome of the call.  Effects happen in source order:
all embeddings are computed (a provider failure aborts before any write;
`embeddings[0]` on empty data raises IndexError before any write), then
`faiss.write_index` writes the index file at `index_path`, then the metadata
JSON is written at `index_path + ".meta.json"` — both directly at their
final paths, with no temporary file or rename. -/
def build_faiss_index (embed : String → List K) (data : List Researcher)
    (index_path : String) (fail : FailPoint) (fs : FS K) :
    FS K × Except Err Unit :=
  let rows := buildRows data
  let texts := rows.1
  let metadata := rows.2
  if texts.isEmpty then (fs, .error .indexError)
  else if fail = .atEmbed then (fs, .error .providerError)
  else
    let embeddings := texts.map embed
    let fs1 := writeIndexFile fs index_path embeddings
    if fail = .atMetaWrite then (fs1, .error .osError)
    else (writeMetaFile fs1 index_path metadata, .ok ())

/-- `search_faiss(query, index_path, top_k)` of `search.py`: read the index
and metadata files, embed the query, run the FAISS search, and map each
returned label through Python subscripting of the metadata list. -/
def search_faiss (embed : String → List K) (fs : FS K) (query : String)
    (index_path : String) (top_k : Nat := 3) : Except Err (List Researcher) := do
  let vectors ← readIndexFile fs index_path
  let metadata ← readMetaFile fs index_path
  let query_embedding := embed query
  let labels := faissSearch vectors query_embedding top_k
  labels.mapM (fun i =>
    match pyGet metadata i with
    | some r => Except.ok r
    | none => Except.error Err.indexError)

/-- The save step performed at the end of `build_faiss_index`
(`embedder.py` lines 42–44): `faiss.write_index(index, index_path)` followed
by dumping the metadata JSON at `index_path + ".meta.json"`. -/
def save (fs : FS K) (path : String) (vectors : List (List K))
    (metadata : List Researcher) : FS K :=
  writeMetaFile (writeIndexFile fs path vectors) path metadata

/-- The load step performed at the start of `search_faiss`
(`search.py` lines 7–9): `faiss.read_index(index_path)` followed by
`json.load` of `index_path + ".meta.json"`. -/
def load (fs : FS K) (path : String) :
    Except Err (List (List K) × List Researcher) := do
  let index ← readIndexFile fs path
  let metadata ← readMetaFile fs path
  pure (index, metadata)

instance : Inhabited Researcher := ⟨⟨"", "", [], [], ""⟩⟩

/-! Concrete instances over `K := ℤ`, used by the closed witness and
counterexample theorems. -/

/-- A stub embedding provider: the length of the text as a one-dimensional
vector. -/
def stubEmbed (s : String) : List ℤ := [(s.length : ℤ)]

/-- A concrete record (spec §8, Scenario A). -/
def alice : Researcher := ⟨"Alice", "X", ["NLP"], [], "srcA"⟩

/-- A second concrete record. -/
def bob : Researcher := ⟨"Bob", "Y", ["ML"], [], "srcB"⟩

/-- The empty file system. -/
def emptyFS : FS ℤ := fun _ => none

/-- The file system after building an index over `[alice]` at path "idx". -/
def fsAlice : FS ℤ :=
  (build_faiss_index stubEmbed [alice] "idx" .none emptyFS).1

/-- The file system after building an index over `[alice, bob]` at "idx". -/
def fsAB : FS ℤ :=
  (build_faiss_index stubEmbed [alice, bob] "idx" .none emptyFS).1

/-- A file system holding an index file at "idx" but no companion metadata
file. -/
def fsIdxOnly : FS ℤ := writeIndexFile emptyFS "idx" [[5]]

/-! ### Helper lemmas -/

theorem buildRows_go (data : List Researcher) (ts : List String)
    (ms : List Researcher) :
    data.foldl (fun acc r => (acc.1 ++ [researcherText r], acc.2 ++ [r])) (ts, ms)
      = (ts ++ data.map researcherText, ms ++ data) := by
  induction data generalizing ts ms with
  | nil => simp
  | cons r rest ih => simp [ih]

theorem buildRows_eq (data : List Researcher) :
    buildRows data = (data.map researcherText, data) := by
  simpa using buildRows_go data [] []

/-- The companion metadata path never equals the index path. -/
theorem metaPath_ne (p : String) : p ++ ".meta.json" ≠ p := by
  intro h
  have hl := congrArg String.length h
  rw [String.length_append] at hl
  have h10 : (".meta.json" : String).length = 10 := rfl
  omega

section ModelLemmas

variable {K : Type}

theorem readIndexFile_save (fs : FS K) (p : String) (v : List (List K))
    (m : List Researcher) : readIndexFile (save fs p v m) p = .ok v := by
  simp [save, writeMetaFile, writeIndexFile, readIndexFile, Ne.symm (metaPath_ne p)]

theorem readMetaFile_save (fs : FS K) (p : String) (v : List (List K))
    (m : List Researcher) : readMetaFile (save fs p v m) p = .ok m := by
  simp [save, writeMetaFile, readMetaFile]

theorem build_faiss_index_ok (embed : String → List K) (data : List Researcher)
    (h : data ≠ []) (p : String) (fs : FS K) :
    build_faiss_index embed data p .none fs
      = (save fs p ((data.map researcherText).map embed) data, .ok ()) := by
  cases data with
  | nil => exact absurd rfl h
  | cons r rest =>
    simp [build_faiss_index, buildRows_eq, save]

end ModelLemmas

section SearchLemmas

variable {K : Type} [LinearOrderedCommRing K]

theorem searchKeys_map_snd (vectors : List (List K)) (q : List K) :
    (searchKeys vectors q).map Prod.snd = List.range vectors.length := by
  simp [searchKeys, searchKey, List.map_map, Function.comp_def]

theorem mem_searchKeys {vectors : List (List K)} {q : List K} {x : K × Nat}
    (hx : x ∈ searchKeys vectors q) :
    x = searchKey vectors q x.2 ∧ x.2 < vectors.length := by
  simp only [searchKeys, List.mem_map, List.mem_range] at hx
  obtain ⟨i, hi, rfl⟩ := hx
  exact ⟨rfl, hi⟩

theorem sortedKeys_pairwise (vectors : List (List K)) (q : List K) :
    ((searchKeys vectors q).insertionSort distOrder).Pairwise distOrder :=
  List.sorted_insertionSort distOrder _

theorem sortedKeys_perm (vectors : List (List K)) (q : List K) :
    List.Perm ((searchKeys vectors q).insertionSort distOrder) (searchKeys vectors q) :=
  List.perm_insertionSort distOrder _

theorem sortedIds_perm_range (vectors : List (List K)) (q : List K) :
    List.Perm (sortedIds vectors q) (List.range vectors.length) := by
  have h := (sortedKeys_perm vectors q).map Prod.snd
  rwa [searchKeys_map_snd] at h

theorem sortedIds_nodup (vectors : List (List K)) (q : List K) :
    (sortedIds vectors q).Nodup :=
  ((sortedIds_perm_range vectors q).nodup_iff).mpr (List.nodup_range _)

theorem sortedIds_length (vectors : List (List K)) (q : List K) :
    (sortedIds vectors q).length = vectors.length := by
  simpa using (sortedIds_perm_range vectors q).length_eq

theorem mem_sortedIds {vectors : List (List K)} {q : List K} {i : Nat} :
    i ∈ sortedIds vectors q ↔ i < vectors.length := by
  rw [(sortedIds_perm_range vectors q).mem_iff, List.mem_range]

theorem sortedIds_pairwise (vectors : List (List K)) (q : List K) :
    (sortedIds vectors q).Pairwise (fun i j =>
      distOrder (searchKey vectors q i) (searchKey vectors q j)) := by
  unfold sortedIds
  rw [List.pairwise_map]
  refine (sortedKeys_pairwise vectors q).imp_of_mem ?_
  intro a b ha hb hab
  have ha' := mem_searchKeys ((sortedKeys_perm vectors q).mem_iff.mp ha)
  have hb' := mem_searchKeys ((sortedKeys_perm vectors q).mem_iff.mp hb)
  rw [← ha'.1, ← hb'.1]
  exact hab

theorem faissSearch_eq (vectors : List (List K)) (q : List K) (k : Nat) :
    faissSearch vectors q k
      = ((sortedIds vectors q).take k).map (fun i : Nat => (i : Int))
        ++ List.replicate (k - vectors.length) (-1) := by
  unfold faissSearch sortedIds
  simp [List.map_take, List.map_map, Function.comp_def]

theorem pairwise_take_drop {α : Type} {R : α → α → Prop} {l : List α}
    (hp : l.Pairwise R) (k : Nat) :
    ∀ a ∈ l.take k, ∀ b ∈ l.drop k, R a b := by
  rw [← List.take_append_drop k l] at hp
  exact (List.pairwise_append.mp hp).2.2

theorem pyGet_ofNat (metadata : List Researcher) (i : Nat)
    (h : i < metadata.length) :
    pyGet metadata (i : Int) = some (metadata.getD i default) := by
  unfold pyGet
  have h0 : ¬((i : Int) < 0) := by omega
  simp [h0, List.get?_eq_getElem?, List.getElem?_eq_getElem h,
    List.getD_eq_getElem?_getD]

theorem pyGet_neg_one (metadata : List Researcher) (h : metadata ≠ []) :
    pyGet metadata (-1) = metadata.getLast? := by
  unfold pyGet
  have hlen : 1 ≤ metadata.length := by
    cases metadata with
    | nil => exact absurd rfl h
    | cons a l => exact Nat.succ_le_succ (Nat.zero_le _)
  have h0 : (0 : Int) ≤ (metadata.length : Int) + (-1) := by omega
  have ht : ((metadata.length : Int) + (-1)).toNat = metadata.length - 1 := by
    omega
  simp only [show ((-1 : Int) < 0) = True from by simp, if_true, h0, ht,
    List.get?_eq_getElem?, List.getLast?_eq_getElem?]

theorem mapM_pyGet_ok (metadata : List Researcher) (ids : List Nat)
    (h : ∀ i ∈ ids, i < metadata.length) :
    (ids.map (fun i : Nat => (i : Int))).mapM (fun i =>
        match pyGet metadata i with
        | some r => Except.ok r
        | none => Except.error Err.indexError)
      = Except.ok (ids.map (fun i => metadata.getD i default)) := by
  induction ids with
  | nil => rfl
  | cons a l ih =>
    have ha : a < metadata.length := h a (List.mem_cons_self ..)
    have hrest := ih (fun i hi => h i (List.mem_cons_of_mem _ hi))
    simp only [List.map_cons, List.mapM_cons, pyGet_ofNat metadata a ha, hrest]
    rfl

theorem mapM_pyGet_replicate (metadata : List Researcher) (r : Nat)
    (last : Researcher) (hl : metadata.getLast? = some last) :
    (List.replicate r (-1 : Int)).mapM (fun i =>
        match pyGet metadata i with
        | some r => Except.ok r
        | none => Except.error Err.indexError)
      = Except.ok (List.replicate r last) := by
  have hne : metadata ≠ [] := by
    intro h
    rw [h] at hl
    exact Option.noConfusion hl
  have hget : pyGet metadata (-1) = some last := by
    rw [pyGet_neg_one metadata hne]
    exact hl
  induction r with
  | zero => rfl
  | succ n ih =>
    simp only [List.replicate_succ, List.mapM_cons, hget, ih]
    rfl

theorem search_faiss_eq {K : Type} [LinearOrderedCommRing K]
    (embed : String → List K) (fs : FS K) (query p : String) (k : Nat)
    (vectors : List (List K)) (metadata : List Researcher)
    (hv : readIndexFile fs p = .ok vectors)
    (hm : readMetaFile fs p = .ok metadata) :
    search_faiss embed fs query p k
      = (faissSearch vectors (embed query) k).mapM (fun i =>
          match pyGet metadata i with
          | some r => Except.ok r
          | none => Except.error Err.indexError) := by
  unfold search_faiss
  rw [hv, hm]
  rfl

/-- The general shape of a successful `search_faiss` over an aligned pair
with a non-empty record list: the first `min k n` results follow the sorted
ranking, the remaining `k - n` results repeat the last metadata entry
(the FAISS `-1` padding resolved by negative indexing in Python). -/
theorem search_faiss_result {K : Type} [LinearOrderedCommRing K]
    (embed : String → List K) (fs : FS K) (query p : String) (k : Nat)
    (vectors : List (List K)) (metadata : List Researcher)
    (hv : readIndexFile fs p = .ok vectors)
    (hm : readMetaFile fs p = .ok metadata)
    (hlen : metadata.length = vectors.length)
    (last : Researcher) (hl : metadata.getLast? = some last) :
    search_faiss embed fs query p k
      = .ok (((sortedIds vectors (embed query)).take k).map
            (fun i => metadata.getD i default)
          ++ List.replicate (k - vectors.length) last) := by
  rw [search_faiss_eq embed fs query p k vectors metadata hv hm,
    faissSearch_eq, List.mapM_append,
    mapM_pyGet_ok metadata _ (fun i hi =>
      hlen ▸ mem_sortedIds.mp (List.take_subset _ _ hi)),
    mapM_pyGet_replicate metadata _ last hl]
  rfl

end SearchLemmas

/-! ### Claims -/

/-- Claim C1: for every non-empty record list, `build_faiss_index` produces a
vector index and a metadata table with `len(vectors) = len(metadata) =
len(records)`, position `i` of the index holding the embedding of the text of
record `i` and position `i` of the metadata table holding record `i`. -/
theorem build_index_aligned {K : Type} (embed : String → List K)
    (data : List Researcher) (h : data ≠ []) (p : String) (fs : FS K) :
    ∃ vectors metadata,
      (build_faiss_index embed data p .none fs).2 = .ok () ∧
      readIndexFile (build_faiss_index embed data p .none fs).1 p = .ok vectors ∧
      readMetaFile (build_faiss_index embed data p .none fs).1 p = .ok metadata ∧
      vectors.length = data.length ∧
      metadata.length = data.length ∧
      ∀ i, i < data.length →
        vectors[i]? = (data[i]?.map (fun r => embed (researcherText r))) ∧
        metadata[i]? = data[i]? := by
  have hb := build_faiss_index_ok embed data h p fs
  refine ⟨(data.map researcherText).map embed, data, ?_, ?_, ?_, ?_, ?_, ?_⟩
  · rw [hb]
  · rw [hb]; exact readIndexFile_save ..
  · rw [hb]; exact readMetaFile_save ..
  · simp
  · rfl
  · intro i hi
    refine ⟨?_, rfl⟩
    simp [Function.comp_def]

/-- Witness for C1: `build_faiss_index` over the single record `alice`. -/
theorem build_index_aligned_witness :
    ([alice] : List Researcher) ≠ [] ∧
    ∃ vectors metadata,
      (build_faiss_index stubEmbed [alice] "idx" .none emptyFS).2 = .ok () ∧
      readIndexFile (build_faiss_index stubEmbed [alice] "idx" .none emptyFS).1
        "idx" = .ok vectors ∧
      readMetaFile (build_faiss_index stubEmbed [alice] "idx" .none emptyFS).1
        "idx" = .ok metadata ∧
      vectors.length = ([alice] : List Researcher).length ∧
      metadata.length = ([alice] : List Researcher).length ∧
      ∀ i, i < ([alice] : List Researcher).length →
        vectors[i]? = (([alice] : List Researcher)[i]?.map
          (fun r => stubEmbed (researcherText r))) ∧
        metadata[i]? = ([alice] : List Researcher)[i]? :=
  ⟨by decide, build_index_aligned stubEmbed [alice] (by decide) "idx" emptyFS⟩

/-- Claim C2: saving an index/metadata pair at path `p` (as done at the end
of `build_faiss_index`) and then loading it (as done at the start of
`search_faiss`, from `p` and the companion path `p ++ ".meta.json"`) yields
exactly the same pair. -/
theorem save_load_roundtrip {K : Type} (fs : FS K) (p : String)
    (vectors : List (List K)) (metadata : List Researcher) :
    load (save fs p vectors metadata) p = .ok (vectors, metadata) := by
  unfold load
  rw [readIndexFile_save, readMetaFile_save]
  rfl

/-- Claim C3: for every persisted index/metadata pair and positive `top_k`
not exceeding the record count, `search_faiss` returns the metadata entries
of the `top_k` vectors of smallest squared Euclidean distance to the embedded
query, in ascending-distance order, records at equal distance appearing in
order of their (lower-first) index position. -/
theorem search_topk_nearest {K : Type} [LinearOrderedCommRing K]
    (embed : String → List K) (fs : FS K) (query p : String) (k : Nat)
    (vectors : List (List K)) (metadata : List Researcher)
    (hv : readIndexFile fs p = .ok vectors)
    (hm : readMetaFile fs p = .ok metadata)
    (hlen : metadata.length = vectors.length)
    (_hk : 0 < k) (hkn : k ≤ vectors.length) :
    ∃ ids : List Nat,
      search_faiss embed fs query p k
        = .ok (ids.map (fun i => metadata.getD i default)) ∧
      ids.length = k ∧
      ids.Nodup ∧
      (∀ i ∈ ids, i < vectors.length) ∧
      ids.Pairwise (fun i j =>
        sqDist (embed query) (vectors.getD i [])
            < sqDist (embed query) (vectors.getD j [])
          ∨ (sqDist (embed query) (vectors.getD i [])
                = sqDist (embed query) (vectors.getD j []) ∧ i ≤ j)) ∧
      (∀ j, j < vectors.length → j ∉ ids → ∀ i ∈ ids,
        sqDist (embed query) (vectors.getD i [])
            < sqDist (embed query) (vectors.getD j [])
          ∨ (sqDist (embed query) (vectors.getD i [])
                = sqDist (embed query) (vectors.getD j []) ∧ i ≤ j)) := by
  refine ⟨(sortedIds vectors (embed query)).take k, ?_, ?_, ?_, ?_, ?_, ?_⟩
  · rw [search_faiss_eq embed fs query p k vectors metadata hv hm,
      faissSearch_eq, Nat.sub_eq_zero_of_le hkn]
    simp only [List.replicate_zero, List.append_nil]
    exact mapM_pyGet_ok metadata _ (fun i hi =>
      hlen ▸ mem_sortedIds.mp (List.take_subset _ _ hi))
  · rw [List.length_take, sortedIds_length]
    exact Nat.min_eq_left hkn
  · exact List.Nodup.sublist (List.take_sublist _ _)
      (sortedIds_nodup vectors (embed query))
  · exact fun i hi => mem_sortedIds.mp (List.take_subset _ _ hi)
  · exact List.Pairwise.sublist (List.take_sublist _ _)
      (sortedIds_pairwise vectors (embed query))
  · intro j hj hnot i hi
    have hjmem : j ∈ sortedIds vectors (embed query) := mem_sortedIds.mpr hj
    rw [← List.take_append_drop k (sortedIds vectors (embed query)),
      List.mem_append] at hjmem
    rcases hjmem with hjt | hjd
    · exact absurd hjt hnot
    · exact pairwise_take_drop (sortedIds_pairwise vectors (embed query)) k
        i hi j hjd

/-- Witness for C3: `search_faiss` over the two-record index `fsAB`
(`K = ℤ`) with `top_k = 2`. -/
theorem search_topk_nearest_witness :
    readIndexFile fsAB "idx" = .ok [[(36 : ℤ)], [(33 : ℤ)]] ∧
    readMetaFile fsAB "idx" = .ok [alice, bob] ∧
    ([alice, bob] : List Researcher).length
      = ([[(36 : ℤ)], [(33 : ℤ)]] : List (List ℤ)).length ∧
    0 < 2 ∧ 2 ≤ ([[(36 : ℤ)], [(33 : ℤ)]] : List (List ℤ)).length ∧
    ∃ ids : List Nat,
      search_faiss stubEmbed fsAB "q" "idx" 2
        = .ok (ids.map (fun i => ([alice, bob] : List Researcher).getD i default)) ∧
      ids.length = 2 ∧
      ids.Nodup ∧
      (∀ i ∈ ids, i < ([[(36 : ℤ)], [(33 : ℤ)]] : List (List ℤ)).length) ∧
      ids.Pairwise (fun i j =>
        sqDist (stubEmbed "q") (([[(36 : ℤ)], [(33 : ℤ)]] : List (List ℤ)).getD i [])
            < sqDist (stubEmbed "q") (([[(36 : ℤ)], [(33 : ℤ)]] : List (List ℤ)).getD j [])
          ∨ (sqDist (stubEmbed "q") (([[(36 : ℤ)], [(33 : ℤ)]] : List (List ℤ)).getD i [])
                = sqDist (stubEmbed "q") (([[(36 : ℤ)], [(33 : ℤ)]] : List (List ℤ)).getD j [])
              ∧ i ≤ j)) ∧
      (∀ j, j < ([[(36 : ℤ)], [(33 : ℤ)]] : List (List ℤ)).length → j ∉ ids →
        ∀ i ∈ ids,
        sqDist (stubEmbed "q") (([[(36 : ℤ)], [(33 : ℤ)]] : List (List ℤ)).getD i [])
            < sqDist (stubEmbed "q") (([[(36 : ℤ)], [(33 : ℤ)]] : List (List ℤ)).getD j [])
          ∨ (sqDist (stubEmbed "q") (([[(36 : ℤ)], [(33 : ℤ)]] : List (List ℤ)).getD i [])
                = sqDist (stubEmbed "q") (([[(36 : ℤ)], [(33 : ℤ)]] : List (List ℤ)).getD j [])
              ∧ i ≤ j)) :=
  ⟨by decide, by decide, by decide, by decide, by decide,
    search_topk_nearest stubEmbed fsAB "q" "idx" 2 [[(36 : ℤ)], [(33 : ℤ)]]
      [alice, bob] (by decide) (by decide) (by decide) (by decide) (by decide)⟩

/-- Counterexample to C4 as stated: over the one-record index `fsAlice`,
`search_faiss` with `top_k = 2` does not clamp to the record count — it
returns two entries (the record twice), not the single indexed record. -/
theorem search_no_clamp_cex :
    search_faiss stubEmbed fsAlice "q" "idx" 2 = .ok [alice, alice] ∧
    search_faiss stubEmbed fsAlice "q" "idx" 2 ≠ .ok [alice] :=
  ⟨by decide, by decide⟩

/-- Claim C4 (amended): for `top_k` exceeding the record count `n`,
`search_faiss` does not fail and does not clamp: it returns a list of length
`top_k` whose first `n` entries are all `n` records ordered by non-decreasing
distance (ties by lower position) and whose remaining `top_k - n` entries
each repeat the last metadata entry. -/
theorem search_overflow_pads {K : Type} [LinearOrderedCommRing K]
    (embed : String → List K) (fs : FS K) (query p : String) (k : Nat)
    (vectors : List (List K)) (metadata : List Researcher)
    (hv : readIndexFile fs p = .ok vectors)
    (hm : readMetaFile fs p = .ok metadata)
    (hlen : metadata.length = vectors.length)
    (hne : vectors ≠ []) (hkn : vectors.length < k) :
    ∃ (ids : List Nat) (last : Researcher),
      metadata.getLast? = some last ∧
      search_faiss embed fs query p k
        = .ok (ids.map (fun i => metadata.getD i default)
            ++ List.replicate (k - vectors.length) last) ∧
      (ids.map (fun i => metadata.getD i default)
        ++ List.replicate (k - vectors.length) last).length = k ∧
      ids.length = vectors.length ∧
      List.Perm ids (List.range vectors.length) ∧
      ids.Pairwise (fun i j =>
        sqDist (embed query) (vectors.getD i [])
            < sqDist (embed query) (vectors.getD j [])
          ∨ (sqDist (embed query) (vectors.getD i [])
                = sqDist (embed query) (vectors.getD j []) ∧ i ≤ j)) := by
  have hmne : metadata ≠ [] := by
    intro h
    rw [h] at hlen
    exact hne (List.length_eq_zero.mp hlen.symm)
  obtain ⟨last, hl⟩ := Option.isSome_iff_exists.mp (List.getLast?_isSome.mpr hmne)
  have htake : (sortedIds vectors (embed query)).take k
      = sortedIds vectors (embed query) :=
    List.take_of_length_le (by rw [sortedIds_length]; omega)
  refine ⟨sortedIds vectors (embed query), last, hl, ?_, ?_, ?_, ?_, ?_⟩
  · have h := search_faiss_result embed fs query p k vectors metadata
      hv hm hlen last hl
    rwa [htake] at h
  · rw [List.length_append, List.length_map, List.length_replicate,
      sortedIds_length]
    omega
  · exact sortedIds_length vectors (embed query)
  · exact sortedIds_perm_range vectors (embed query)
  · exact sortedIds_pairwise vectors (embed query)

/-- Witness for the amended C4: the one-record index `fsAlice` searched with
`top_k = 2`. -/
theorem search_overflow_pads_witness :
    readIndexFile fsAlice "idx" = .ok [[(36 : ℤ)]] ∧
    readMetaFile fsAlice "idx" = .ok [alice] ∧
    ([alice] : List Researcher).length = ([[(36 : ℤ)]] : List (List ℤ)).length ∧
    ([[(36 : ℤ)]] : List (List ℤ)) ≠ [] ∧
    ([[(36 : ℤ)]] : List (List ℤ)).length < 2 ∧
    ∃ (ids : List Nat) (last : Researcher),
      ([alice] : List Researcher).getLast? = some last ∧
      search_faiss stubEmbed fsAlice "q" "idx" 2
        = .ok (ids.map (fun i => ([alice] : List Researcher).getD i default)
            ++ List.replicate (2 - ([[(36 : ℤ)]] : List (List ℤ)).length) last) ∧
      (ids.map (fun i => ([alice] : List Researcher).getD i default)
        ++ List.replicate (2 - ([[(36 : ℤ)]] : List (List ℤ)).length) last).length
          = 2 ∧
      ids.length = ([[(36 : ℤ)]] : List (List ℤ)).length ∧
      List.Perm ids (List.range ([[(36 : ℤ)]] : List (List ℤ)).length) ∧
      ids.Pairwise (fun i j =>
        sqDist (stubEmbed "q") (([[(36 : ℤ)]] : List (List ℤ)).getD i [])
            < sqDist (stubEmbed "q") (([[(36 : ℤ)]] : List (List ℤ)).getD j [])
          ∨ (sqDist (stubEmbed "q") (([[(36 : ℤ)]] : List (List ℤ)).getD i [])
                = sqDist (stubEmbed "q") (([[(36 : ℤ)]] : List (List ℤ)).getD j [])
              ∧ i ≤ j)) :=
  ⟨by decide, by decide, by decide, by decide, by decide,
    search_overflow_pads stubEmbed fsAlice "q" "idx" 2 [[(36 : ℤ)]] [alice]
      (by decide) (by decide) (by decide) (by decide) (by decide)⟩

/-- Claim C9: for `top_k` exceeding the record count `n`, `search_faiss`
returns a list of length exactly `top_k`; FAISS pads the label row with `-1`
at every position past `n`, and negative indexing in Python resolves each `-1`
to the last metadata entry, so every surplus result position holds a
duplicate of the final indexed record. -/
theorem search_overflow_duplicates_last {K : Type} [LinearOrderedCommRing K]
    (embed : String → List K) (fs : FS K) (query p : String) (k : Nat)
    (vectors : List (List K)) (metadata : List Researcher)
    (hv : readIndexFile fs p = .ok vectors)
    (hm : readMetaFile fs p = .ok metadata)
    (hlen : metadata.length = vectors.length)
    (hne : vectors ≠ []) (hkn : vectors.length < k) :
    ∃ res : List Researcher,
      search_faiss embed fs query p k = .ok res ∧
      res.length = k ∧
      (∀ j, vectors.length ≤ j → j < k →
        (faissSearch vectors (embed query) k)[j]? = some (-1)) ∧
      (∀ j, vectors.length ≤ j → j < k → res[j]? = metadata.getLast?) := by
  have hmne : metadata ≠ [] := by
    intro h
    rw [h] at hlen
    exact hne (List.length_eq_zero.mp hlen.symm)
  obtain ⟨last, hl⟩ := Option.isSome_iff_exists.mp (List.getLast?_isSome.mpr hmne)
  have htake : (sortedIds vectors (embed query)).take k
      = sortedIds vectors (embed query) :=
    List.take_of_length_le (by rw [sortedIds_length]; omega)
  refine ⟨_, search_faiss_result embed fs query p k vectors metadata
    hv hm hlen last hl, ?_, ?_, ?_⟩
  · rw [List.length_append, List.length_map, htake, sortedIds_length,
      List.length_replicate]
    omega
  · intro j hnj hjk
    rw [faissSearch_eq]
    have hmaplen :
        (((sortedIds vectors (embed query)).take k).map
          (fun i : Nat => (i : Int))).length = vectors.length := by
      rw [List.length_map, htake, sortedIds_length]
    rw [List.getElem?_append_right (by omega), hmaplen,
      List.getElem?_replicate, if_pos (by omega)]
  · intro j hnj hjk
    have hmaplen :
        (((sortedIds vectors (embed query)).take k).map
          (fun i => metadata.getD i default)).length = vectors.length := by
      rw [List.length_map, htake, sortedIds_length]
    rw [List.getElem?_append_right (by omega), hmaplen,
      List.getElem?_replicate, if_pos (by omega), hl]

/-- Witness for C9: the one-record index `fsAlice` searched with
`top_k = 2`. -/
theorem search_overflow_duplicates_last_witness :
    readIndexFile fsAlice "idx" = .ok [[(36 : ℤ)]] ∧
    readMetaFile fsAlice "idx" = .ok [alice] ∧
    ([alice] : List Researcher).length = ([[(36 : ℤ)]] : List (List ℤ)).length ∧
    ([[(36 : ℤ)]] : List (List ℤ)) ≠ [] ∧
    ([[(36 : ℤ)]] : List (List ℤ)).length < 2 ∧
    ∃ res : List Researcher,
      search_faiss stubEmbed fsAlice "q" "idx" 2 = .ok res ∧
      res.length = 2 ∧
      (∀ j, ([[(36 : ℤ)]] : List (List ℤ)).length ≤ j → j < 2 →
        (faissSearch ([[(36 : ℤ)]] : List (List ℤ)) (stubEmbed "q") 2)[j]?
          = some (-1)) ∧
      (∀ j, ([[(36 : ℤ)]] : List (List ℤ)).length ≤ j → j < 2 →
        res[j]? = ([alice] : List Researcher).getLast?) :=
  ⟨by decide, by decide, by decide, by decide, by decide,
    search_overflow_duplicates_last stubEmbed fsAlice "q" "idx" 2
      [[(36 : ℤ)]] [alice] (by decide) (by decide) (by decide) (by decide)
      (by decide)⟩

/-- Counterexample to C5 as stated: rebuilding over `[bob]` at "idx" with a
failure at the metadata write does not leave the previously persisted good
index (`fsAlice`) unchanged — the index file has already been overwritten in
place. -/
theorem build_partial_overwrite_cex :
    (build_faiss_index stubEmbed [bob] "idx" .atMetaWrite fsAlice).2
      = .error .osError ∧
    (build_faiss_index stubEmbed [bob] "idx" .atMetaWrite fsAlice).1 "idx"
      ≠ fsAlice "idx" :=
  ⟨by decide, by decide⟩

/-- Claim C5 (amended): `build_faiss_index` writes both artifacts directly at
their final paths, with no temporary location or rename.  A failure before
the index write (a provider failure during embedding) leaves the persisted
state untouched, but a failure between the index write and the metadata
write leaves the index file at `index_path` overwritten with the new vectors
while the old metadata file remains. -/
theorem build_failure_effects {K : Type} (embed : String → List K)
    (data : List Researcher) (h : data ≠ []) (p : String) (fs : FS K) :
    ((build_faiss_index embed data p .atEmbed fs).1 = fs ∧
      (build_faiss_index embed data p .atEmbed fs).2
        = .error .providerError) ∧
    ((build_faiss_index embed data p .atMetaWrite fs).2 = .error .osError ∧
      (build_faiss_index embed data p .atMetaWrite fs).1 p
        = some (.indexFile ((data.map researcherText).map embed)) ∧
      ∀ q, q ≠ p → (build_faiss_index embed data p .atMetaWrite fs).1 q
        = fs q) := by
  cases data with
  | nil => exact absurd rfl h
  | cons r rest =>
    refine ⟨⟨?_, ?_⟩, ?_, ?_, ?_⟩
    · simp [build_faiss_index, buildRows_eq]
    · simp [build_faiss_index, buildRows_eq]
    · simp [build_faiss_index, buildRows_eq]
    · simp [build_faiss_index, buildRows_eq, writeIndexFile]
    · intro q hq
      simp [build_faiss_index, buildRows_eq, writeIndexFile, hq]

/-- Witness for the amended C5: rebuilding over `[bob]` on top of the
one-record index `fsAlice`. -/
theorem build_failure_effects_witness :
    ([bob] : List Researcher) ≠ [] ∧
    (((build_faiss_index stubEmbed [bob] "idx" .atEmbed fsAlice).1 = fsAlice ∧
      (build_faiss_index stubEmbed [bob] "idx" .atEmbed fsAlice).2
        = .error .providerError) ∧
    ((build_faiss_index stubEmbed [bob] "idx" .atMetaWrite fsAlice).2
        = .error .osError ∧
      (build_faiss_index stubEmbed [bob] "idx" .atMetaWrite fsAlice).1 "idx"
        = some (.indexFile ((([bob] : List Researcher).map
            researcherText).map stubEmbed)) ∧
      ∀ q, q ≠ "idx" →
        (build_faiss_index stubEmbed [bob] "idx" .atMetaWrite fsAlice).1 q
          = fsAlice q)) :=
  ⟨by decide, build_failure_effects stubEmbed [bob] (by decide) "idx" fsAlice⟩

/-- Counterexample to C6 as stated: building from the empty record list
fails with a plain IndexError (from `embeddings[0]`), not with the
`EmptyDatasetError` of the spec; no index is produced. -/
theorem build_empty_errors_cex :
    (build_faiss_index stubEmbed ([] : List Researcher) "idx" .none
        emptyFS).2 = .error .indexError ∧
    (build_faiss_index stubEmbed ([] : List Researcher) "idx" .none
        emptyFS).2 ≠ .error .emptyDatasetError ∧
    (build_faiss_index stubEmbed ([] : List Researcher) "idx" .none
        emptyFS).1 = emptyFS :=
  ⟨by decide, by decide, rfl⟩

/-- Claim C6 (amended): building from an empty record list fails — with the
Python IndexError raised by `embeddings[0]` on the empty embedding list, not
with a dedicated `EmptyDatasetError` — and writes nothing. -/
theorem build_empty_raises_index_error {K : Type} (embed : String → List K)
    (p : String) (fail : FailPoint) (fs : FS K) :
    build_faiss_index embed ([] : List Researcher) p fail fs
      = (fs, .error .indexError) := rfl

theorem readIndexFile_error_eq {K : Type} (fs : FS K) (p : String) (e : Err)
    (h : readIndexFile fs p = .error e) : e = .faissReadError := by
  unfold readIndexFile at h
  cases hf : fs p with
  | none =>
    rw [hf] at h
    exact (Except.error.inj h).symm
  | some c =>
    cases c with
    | indexFile v =>
      rw [hf] at h
      exact Except.noConfusion h
    | metaFile m =>
      rw [hf] at h
      exact (Except.error.inj h).symm

theorem readMetaFile_error_eq {K : Type} (fs : FS K) (p : String) (e : Err)
    (h : readMetaFile fs p = .error e) :
    e = .jsonDecodeError ∨ e = .fileNotFoundError := by
  unfold readMetaFile at h
  cases hf : fs (p ++ ".meta.json") with
  | none =>
    rw [hf] at h
    exact Or.inr (Except.error.inj h).symm
  | some c =>
    cases c with
    | indexFile v =>
      rw [hf] at h
      exact Or.inl (Except.error.inj h).symm
    | metaFile m =>
      rw [hf] at h
      exact Except.noConfusion h

theorem mapM_error_of_error {β : Type} (f : Int → Except Err β) (l : List Int)
    (e : Err) (h : l.mapM f = .error e) : ∃ i ∈ l, f i = .error e := by
  induction l with
  | nil => exact Except.noConfusion h
  | cons a t ih =>
    rw [List.mapM_cons] at h
    cases hfa : f a with
    | error e' =>
      rw [hfa] at h
      have he : e' = e := Except.error.inj h
      exact ⟨a, List.mem_cons_self .., by rw [hfa, he]⟩
    | ok x =>
      rw [hfa] at h
      cases hmt : t.mapM f with
      | error e' =>
        rw [hmt] at h
        have he : e' = e := Except.error.inj h
        obtain ⟨i, hi, hfi⟩ := ih (by rw [hmt, he])
        exact ⟨i, List.mem_cons_of_mem _ hi, hfi⟩
      | ok xs =>
        rw [hmt] at h
        exact Except.noConfusion h

/-- Counterexample to C7 as stated: over the two-record index `fsAB`, the
empty query succeeds and returns a record — it does not fail with
`InvalidQueryError`. -/
theorem search_empty_query_cex :
    search_faiss stubEmbed fsAB "" "idx" 1 = .ok [bob] ∧
    search_faiss stubEmbed fsAB "" "idx" 1 ≠ .error .invalidQueryError :=
  ⟨by decide, by decide⟩

/-- Claim C7 (amended): `search_faiss` performs no query validation at all —
no trimming, no emptiness check — and can never fail with
`InvalidQueryError`; an empty or whitespace query is embedded and searched
like any other. -/
theorem search_never_invalid_query {K : Type} [LinearOrderedCommRing K]
    (embed : String → List K) (fs : FS K) (query p : String) (k : Nat) :
    search_faiss embed fs query p k ≠ .error .invalidQueryError := by
  intro h
  cases hv : readIndexFile fs p with
  | error e =>
    unfold search_faiss at h
    rw [hv] at h
    have he : e = .invalidQueryError := Except.error.inj h
    have hf := readIndexFile_error_eq fs p e hv
    rw [he] at hf
    exact Err.noConfusion hf
  | ok vectors =>
    cases hm : readMetaFile fs p with
    | error e =>
      unfold search_faiss at h
      rw [hv, hm] at h
      have he : e = .invalidQueryError := Except.error.inj h
      rcases readMetaFile_error_eq fs p e hm with h1 | h1 <;>
        (rw [he] at h1; exact Err.noConfusion h1)
    | ok metadata =>
      rw [search_faiss_eq embed fs query p k vectors metadata hv hm] at h
      obtain ⟨i, _, hfi⟩ := mapM_error_of_error _ _ _ h
      cases hp : pyGet metadata i with
      | some r =>
        rw [hp] at hfi
        exact Except.noConfusion hfi
      | none =>
        rw [hp] at hfi
        exact Err.noConfusion (Except.error.inj hfi)

/-- Counterexample to C8 as stated: loading from a path where the index file
is missing (spec §8, Scenario C) fails with the FAISS read error, not with a
dedicated `IndexNotFoundError`. -/
theorem load_missing_cex :
    load emptyFS "missing/path" = .error .faissReadError ∧
    load emptyFS "missing/path" ≠ .error .indexNotFoundError :=
  ⟨by decide, by decide⟩

/-- Claim C8 (amended): the load step of `search_faiss` fails whenever either
file of the persisted pair is missing — with the FAISS read error
(`faiss.read_index` raising) when the vector-index file is missing, and with
the Python FileNotFoundError when the index file is present but the companion
metadata file is missing; no dedicated `IndexNotFoundError` exists. -/
theorem load_missing_file_errors {K : Type} (fs : FS K) (p : String) :
    (fs p = none → load fs p = .error .faissReadError) ∧
    (∀ v, fs p = some (.indexFile v) → fs (p ++ ".meta.json") = none →
      load fs p = .error .fileNotFoundError) := by
  constructor
  · intro h
    unfold load readIndexFile
    rw [h]
    rfl
  · intro v hv hm
    unfold load readIndexFile readMetaFile
    rw [hv, hm]
    rfl

/-- Witness for the amended C8: an empty file system at "missing/path" and a
file system holding only the index file at "idx". -/
theorem load_missing_file_errors_witness :
    (emptyFS "missing/path" = none ∧
      load emptyFS "missing/path" = .error .faissReadError) ∧
    (fsIdxOnly "idx" = some (.indexFile [[(5 : ℤ)]]) ∧
      fsIdxOnly ("idx" ++ ".meta.json") = none ∧
      load fsIdxOnly "idx" = .error .fileNotFoundError) :=
  ⟨⟨by decide,
      (load_missing_file_errors emptyFS "missing/path").1 (by decide)⟩,
    ⟨by decide, by decide,
      (load_missing_file_errors fsIdxOnly "idx").2 [[(5 : ℤ)]] (by decide)
        (by decide)⟩⟩

theorem pyGet_mem_of_range (metadata : List Researcher) (i : Int)
    (hne : metadata ≠ []) (hlo : -1 ≤ i) (hhi : i < (metadata.length : Int)) :
    ∃ r, pyGet metadata i = some r ∧ r ∈ metadata := by
  by_cases h0 : i < 0
  · have hi1 : i = -1 := by omega
    subst hi1
    rw [pyGet_neg_one metadata hne]
    cases hg : metadata.getLast? with
    | none =>
      have hs := List.getLast?_isSome.mpr hne
      rw [hg] at hs
      exact Bool.noConfusion hs
    | some r => exact ⟨r, rfl, List.mem_of_getLast?_eq_some hg⟩
  · have hlt : i.toNat < metadata.length := by omega
    refine ⟨metadata.get ⟨i.toNat, hlt⟩, ?_, List.get_mem ..⟩
    unfold pyGet
    simp only [h0, if_false, if_pos (not_lt.mp h0), List.get?_eq_getElem?]
    exact List.getElem?_eq_getElem hlt

theorem faissSearch_label_bounds {K : Type} [LinearOrderedCommRing K]
    (vectors : List (List K)) (q : List K) (k : Nat) :
    ∀ i ∈ faissSearch vectors q k, -1 ≤ i ∧ i < (vectors.length : Int) := by
  intro i hi
  rw [faissSearch_eq] at hi
  rcases List.mem_append.mp hi with h | h
  · obtain ⟨j, hj, rfl⟩ := List.mem_map.mp h
    have hjn : j < vectors.length := mem_sortedIds.mp (List.take_subset _ _ hj)
    omega
  · rw [List.eq_of_mem_replicate h]
    omega

theorem mapM_pyGet_exists (metadata : List Researcher) (labels : List Int)
    (h : ∀ i ∈ labels, ∃ r, pyGet metadata i = some r ∧ r ∈ metadata) :
    ∃ res, labels.mapM (fun i =>
        match pyGet metadata i with
        | some r => Except.ok r
        | none => Except.error Err.indexError) = .ok res
      ∧ ∀ r ∈ res, r ∈ metadata := by
  induction labels with
  | nil =>
    exact ⟨[], rfl, fun r hr => absurd hr (List.not_mem_nil r)⟩
  | cons a t ih =>
    obtain ⟨r0, hp, hr0⟩ := h a (List.mem_cons_self ..)
    obtain ⟨res, hres, hmem⟩ := ih (fun i hi => h i (List.mem_cons_of_mem _ hi))
    refine ⟨r0 :: res, ?_, ?_⟩
    · rw [List.mapM_cons, hp, hres]
      rfl
    · intro r hr
      rcases List.mem_cons.mp hr with rfl | hr
      · exact hr0
      · exact hmem r hr

/-- Claim C10: every record returned by `search_faiss` is one of the
original Entity Records from the input data, unchanged — `build_faiss_index`
stores each parsed record in full in the metadata table (including fields
such as `source` that are unused by the embedding text) and search returns
those stored entries verbatim. -/
theorem search_returns_original_records {K : Type} [LinearOrderedCommRing K]
    (embed : String → List K) (data : List Researcher) (h : data ≠ [])
    (p query : String) (fs : FS K) (k : Nat) :
    readMetaFile (build_faiss_index embed data p .none fs).1 p = .ok data ∧
    ∃ results,
      search_faiss embed (build_faiss_index embed data p .none fs).1 query p k
        = .ok results ∧
      ∀ r ∈ results, r ∈ data := by
  have hb := build_faiss_index_ok embed data h p fs
  have hv : readIndexFile (build_faiss_index embed data p .none fs).1 p
      = .ok ((data.map researcherText).map embed) := by
    rw [hb]
    exact readIndexFile_save ..
  have hm : readMetaFile (build_faiss_index embed data p .none fs).1 p
      = .ok data := by
    rw [hb]
    exact readMetaFile_save ..
  refine ⟨hm, ?_⟩
  have hbounds := faissSearch_label_bounds ((data.map researcherText).map embed)
    (embed query) k
  obtain ⟨res, hres, hmem⟩ := mapM_pyGet_exists data
    (faissSearch ((data.map researcherText).map embed) (embed query) k)
    (fun i hi => by
      obtain ⟨hlo, hhi⟩ := hbounds i hi
      exact pyGet_mem_of_range data i h hlo (by simpa using hhi))
  exact ⟨res,
    by rw [search_faiss_eq embed _ query p k _ data hv hm]; exact hres, hmem⟩

/-- Witness for C10: `build_faiss_index` over `[alice]` followed by a
search with the default `top_k = 3`. -/
theorem search_returns_original_records_witness :
    ([alice] : List Researcher) ≠ [] ∧
    readMetaFile (build_faiss_index stubEmbed [alice] "idx" .none emptyFS).1
      "idx" = .ok [alice] ∧
    ∃ results,
      search_faiss stubEmbed
          (build_faiss_index stubEmbed [alice] "idx" .none emptyFS).1
          "q" "idx" 3
        = .ok results ∧
      ∀ r ∈ results, r ∈ ([alice] : List Researcher) :=
  ⟨by decide,
    search_returns_original_records stubEmbed [alice] (by decide) "idx" "q"
      emptyFS 3⟩

end SARA
